import Mathlib

/-!
# The `httpdrain` test server

A shallow embedding of `yelp_package/dockerfiles/itest/httpdrain/main.go` and of the
pieces of the Go standard library its four handlers call, followed by theorems about
the handlers.

* A Go `string` / `[]byte` is a list of byte values (`List Nat`).
* An `int64` is an `Int` kept in range by `wrapInt64`; a `uint64` is a `Nat` reduced
  modulo `2 ^ 64`.
* The marker file `drain` is an `Option (List Nat)`: `none` when the file does not
  exist, `some content` when it does.
* Every system call of a request can fail for reasons outside the program; the failures
  of one request are an explicit argument (`Faults`).
* The wall clock read by `time.Now()` during a request is an explicit argument (`Clock`).
* A handler returns the marker it leaves behind and the list of status codes it passed to
  `w.WriteHeader`, in order.  Console output (`fmt.Printf`) is not part of the model.
-/

namespace Httpdrain

/-! ## Machine integers and byte strings -/

/-- Two's-complement reduction of an integer to the range of Go's `int64`. -/
def wrapInt64 (x : Int) : Int :=
  (x + 9223372036854775808) % 18446744073709551616 - 9223372036854775808

/-- Reduction of a natural number to the range of Go's `uint64`. -/
def wrapUint64 (x : Nat) : Nat := x % 18446744073709551616

/-- Largest `uint64`. -/
def maxUint64 : Nat := 18446744073709551615

/-- Largest `int64`. -/
def maxInt64 : Int := 9223372036854775807

/-- Smallest `int64`. -/
def minInt64 : Int := -9223372036854775808

/-- Membership in the range of `int64`. -/
def IsInt64 (x : Int) : Prop := minInt64 ≤ x ∧ x ≤ maxInt64

instance (x : Int) : Decidable (IsInt64 x) := by unfold IsInt64; infer_instance

/-- The bytes of an ASCII string literal. -/
def bytes (s : String) : List Nat := s.toList.map Char.toNat

/-! ## `strconv` -/

namespace strconv

/-- The two error kinds of `strconv.NumError` that `ParseInt` can report for a fixed,
valid base and bit size. -/
inductive NumError where
  | ErrSyntax
  | ErrRange
deriving DecidableEq, Repr

/-- Go's `lower(c)`, that is `c | ('x' - 'X')`, on a byte. -/
def lower (c : Nat) : Nat := c ||| 32

/-- The loop of `strconv.ParseUint(s, 10, 64)` over the remaining bytes, with the
accumulator `n`.  The branch for `'_'` is only taken for base 0 and is therefore the
default (syntax error) branch here. -/
def ParseUintLoop : List Nat → Nat → Nat × Option NumError
  | [], n => (n, none)
  | c :: cs, n =>
    let d : Option Nat :=
      if 48 ≤ c ∧ c ≤ 57 then some (c - 48)
      else if 97 ≤ lower c ∧ lower c ≤ 122 then some (lower c - 97 + 10)
      else none
    match d with
    | none => (0, some .ErrSyntax)
    | some d =>
      if d ≥ 10 then (0, some .ErrSyntax)
      else if n ≥ maxUint64 / 10 + 1 then (maxUint64, some .ErrRange)
      else
        let n10 := wrapUint64 (n * 10)
        let n1 := wrapUint64 (n10 + d)
        if n1 < n10 ∨ n1 > maxUint64 then (maxUint64, some .ErrRange)
        else ParseUintLoop cs n1

/-- Go's `strconv.ParseUint(s, 10, 64)`: the value and the error. -/
def ParseUint (s : List Nat) : Nat × Option NumError :=
  if s = [] then (0, some .ErrSyntax) else ParseUintLoop s 0

/-- Go's `strconv.ParseInt(s, 10, 64)`: the value and the error (`none` is Go's `nil`).
A syntax error comes with the value 0, a range error with the nearest `int64` bound. -/
def ParseInt (s : List Nat) : Int × Option NumError :=
  match s with
  | [] => (0, some .ErrSyntax)
  | c :: rest =>
    let neg : Bool := c = 45
    let s1 : List Nat := if c = 43 then rest else if c = 45 then rest else s
    let r := ParseUint s1
    let un := r.1
    let err := r.2
    if err ≠ none ∧ err ≠ some .ErrRange then (0, err)
    else
      let cutoff : Nat := 9223372036854775808
      if ¬ neg ∧ un ≥ cutoff then (((cutoff - 1 : Nat) : Int), some .ErrRange)
      else if neg ∧ un > cutoff then (-((cutoff : Nat) : Int), some .ErrRange)
      else
        let n := wrapInt64 (un : Int)
        let n := if neg then wrapInt64 (-n) else n
        (n, none)

end strconv

/-! ## `fmt` -/

namespace fmt

/-- The digit table `ldigits` of package `fmt`. -/
def ldigits : List Nat := bytes "0123456789abcdefx"

/-- The base-10 loop of `fmt.fmtInteger`: while `u >= 10`, store the last digit in front
of the buffer.  The first argument is the write index `i` into `intbuf`, which the loop
decrements. -/
def fmtIntegerLoop : Nat → Nat → List Nat → Nat × List Nat
  | 0, u, buf => (u, buf)
  | i + 1, u, buf =>
    if u ≥ 10 then
      let next := u / 10
      fmtIntegerLoop i next ((48 + u - next * 10) :: buf)
    else (u, buf)

/-- Go's `fmt.fmtInteger(u, 10, true, 'v', ldigits)` without width, precision or flags, as
reached from `fmt.Sprint` on an `int64`.  The argument is converted to `uint64`, negated
modulo `2 ^ 64` when negative, and written backwards into `intbuf` (68 bytes). -/
def fmtInteger (v : Int) : List Nat :=
  let u0 : Nat := (v % 18446744073709551616).toNat
  let negative : Bool := v < 0
  let u : Nat := if negative then wrapUint64 (18446744073709551616 - u0) else u0
  let r := fmtIntegerLoop 68 u []
  let buf := ldigits.getD r.1 0 :: r.2
  if negative then 45 :: buf else buf

/-- Go's `fmt.Sprint(v)` for a single `int64` operand. -/
def Sprint (v : Int) : List Nat := fmtInteger v

end fmt

/-! ## `time` -/

namespace time

/-- A `time.Duration`: a count of nanoseconds held in an `int64`. -/
abbrev Duration := Int

/-- The constant `time.Second`. -/
def Second : Duration := 1000000000

/-- The constant `minDuration`. -/
def minDuration : Duration := -9223372036854775808

/-- The constant `maxDuration`. -/
def maxDuration : Duration := 9223372036854775807

/-- The constant `unixToInternal`: seconds from January 1, year 1 to January 1, 1970. -/
def unixToInternal : Int := (1969 * 365 + 1969 / 4 - 1969 / 100 + 1969 / 400) * 86400

/-- The constant `internalToUnix`. -/
def internalToUnix : Int := -unixToInternal

/-- The wall-clock part of a `time.Time`: `sec` is the `int64` count of seconds since
January 1, year 1 (what `t.sec()` returns), `nsec` the nanoseconds within the second
(what `t.nsec()` returns).  The time that `time.Unix` returns has no monotonic reading,
so the one `Sub` of this program works on wall clocks only. -/
structure Time where
  sec : Int
  nsec : Int
deriving DecidableEq, Repr

end time

/-- A reading of the system real-time clock, as the runtime hands it to `time.Now`:
seconds since the Unix epoch and nanoseconds within the second. -/
structure Clock where
  sec : Int
  nsec : Int
deriving DecidableEq, Repr

namespace time

/-- Go's `time.Now()` at the clock reading `c`: the seconds are shifted to the year-1
origin in `int64`. -/
def Now (c : Clock) : Time := ⟨wrapInt64 (c.sec + unixToInternal), c.nsec⟩

/-- Method `t.Unix()`: seconds since the Unix epoch. -/
def Time.Unix (t : Time) : Int := wrapInt64 (t.sec + internalToUnix)

/-- Go's `time.Unix(sec, nsec)`.  The seconds are shifted to the year-1 origin in `int64`
and the sum can wrap: as the package documentation puts it, not all `sec` values have a
corresponding time value, `1<<63-1` being one that has none. -/
def Unix (sec nsec : Int) : Time :=
  let p : Int × Int :=
    if nsec < 0 ∨ nsec ≥ 1000000000 then
      let n := Int.tdiv nsec 1000000000
      let sec1 := wrapInt64 (sec + n)
      let nsec1 := wrapInt64 (nsec - wrapInt64 (n * 1000000000))
      if nsec1 < 0 then (wrapInt64 (sec1 - 1), wrapInt64 (nsec1 + 1000000000))
      else (sec1, nsec1)
    else (sec, nsec)
  ⟨wrapInt64 (p.1 + unixToInternal), p.2⟩

/-- Method `t.addSec(d)` on a time without monotonic reading: the sum saturates instead of
wrapping. -/
def Time.addSec (t : Time) (d : Int) : Time :=
  let sum := wrapInt64 (t.sec + d)
  if decide (sum > t.sec) = decide (d > 0) then { t with sec := sum }
  else if d > 0 then { t with sec := 9223372036854775807 }
  else { t with sec := -9223372036854775807 }

/-- Method `t.Add(d)`. -/
def Time.Add (t : Time) (d : Duration) : Time :=
  let dsec := Int.tdiv d 1000000000
  let nsec := t.nsec + Int.tmod d 1000000000
  let p : Int × Int :=
    if nsec ≥ 1000000000 then (wrapInt64 (dsec + 1), nsec - 1000000000)
    else if nsec < 0 then (wrapInt64 (dsec - 1), nsec + 1000000000)
    else (dsec, nsec)
  Time.addSec { t with nsec := p.2 } p.1

/-- Method `t.Equal(u)`. -/
def Time.Equal (t u : Time) : Bool := t.sec = u.sec ∧ t.nsec = u.nsec

/-- Method `t.Before(u)`. -/
def Time.Before (t u : Time) : Bool := t.sec < u.sec ∨ (t.sec = u.sec ∧ t.nsec < u.nsec)

/-- Method `t.Sub(u)`: the difference in nanoseconds, computed in `int64` and replaced by
`minDuration` / `maxDuration` when adding it back to `u` does not give `t`. -/
def Time.Sub (t u : Time) : Duration :=
  let d : Duration := wrapInt64 (wrapInt64 (wrapInt64 (t.sec - u.sec) * Second) + (t.nsec - u.nsec))
  if Time.Equal (Time.Add u d) t then d
  else if Time.Before t u then minDuration
  else maxDuration

/-- Go's `time.Since(t)` at the clock reading `c`: `time.Now().Sub(t)`. -/
def Since (c : Clock) (t : Time) : Duration := Time.Sub (Now c) t

/-- Method `d.Seconds()`: Go returns `float64(d / Second) + float64(d % Second) / 1e9`.  The
model keeps the two integer parts `(d / Second, d % Second)` (truncated division), whose
exact value is `sec + nsec / 10 ^ 9`. -/
def Duration.Seconds (d : Duration) : Int × Int :=
  (Int.tdiv d 1000000000, Int.tmod d 1000000000)

/-- The comparison `x > k` for `x` a result of `Seconds` and `k` an integer constant,
on the exact value `sec + nsec / 10 ^ 9`.  For `k = 2` rounding to `float64` cannot
change the outcome: the whole part is an integer below `2 ^ 53` and the fractional part
is a multiple of `10 ^ (-9)` of absolute value below 1, so the rounded sum is above 2
exactly when the exact sum is. -/
def secondsGt (x : Int × Int) (k : Int) : Bool :=
  x.1 * 1000000000 + x.2 > k * 1000000000

end time

/-! ## `os` and `ioutil`: the marker file -/

/-- The marker file `drain` in the working directory: `none` when it does not exist,
`some content` when it exists with that content. -/
abbrev Marker := Option (List Nat)

/-- Failures that the environment imposes on the system calls of one request.
`stat`: `os.Stat` fails with an error other than "does not exist";
`create`: `os.Create` fails; `write`: `some k` when `WriteString` fails after `k`
bytes reached the file; `read`: `ioutil.ReadFile` fails; `remove`: `os.Remove` fails. -/
structure Faults where
  stat : Bool
  create : Bool
  write : Option Nat
  read : Bool
  remove : Bool
deriving DecidableEq, Repr

/-- No system call is made to fail. -/
def Faults.none : Faults := ⟨false, false, Option.none, false, false⟩

namespace os

/-- An error value returned by a file operation. -/
inductive Error where
  | notExist
  | other
deriving DecidableEq, Repr

/-- Go's `os.Stat(drainFile)`: the returned error (`none` is Go's `nil`). -/
def Stat (f : Faults) (m : Marker) : Option Error :=
  if f.stat then some .other
  else match m with
    | none => some .notExist
    | some _ => none

/-- Go's `os.IsNotExist(err)`. -/
def IsNotExist (err : Option Error) : Bool := err = some .notExist

/-- Go's `os.Create(drainFile)`: creates the file or truncates an existing one. -/
def Create (f : Faults) (m : Marker) : Marker × Option Error :=
  if f.create then (m, some .other) else (some [], none)

/-- Method `file.WriteString(s)` on the handle returned by `os.Create`. -/
def WriteString (f : Faults) (m : Marker) (s : List Nat) : Marker × Option Error :=
  match m with
  | none => (none, some .notExist)
  | some content =>
    match f.write with
    | none => (some (content ++ s), none)
    | some k => (some (content ++ s.take k), some .other)

/-- Go's `os.Remove(drainFile)`. -/
def Remove (f : Faults) (m : Marker) : Marker × Option Error :=
  if f.remove then (m, some .other)
  else match m with
    | none => (none, some .notExist)
    | some _ => (none, none)

end os

namespace ioutil

/-- Go's `ioutil.ReadFile(drainFile)`: the content and the error. -/
def ReadFile (f : Faults) (m : Marker) : List Nat × Option os.Error :=
  if f.read then ([], some .other)
  else match m with
    | none => ([], some .notExist)
    | some content => (content, none)

end ioutil

/-! ## The handlers of `main.go` -/

/-- What a handler leaves behind: the marker and the status codes passed to
`w.WriteHeader`, in call order. -/
structure Outcome where
  marker : Marker
  written : List Nat
deriving DecidableEq, Repr

/-- The status code the client receives: the first one written, or `net/http`'s default
200 when the handler returns without writing one. -/
def Outcome.status (o : Outcome) : Nat := o.written.headD 200

/-- Handler `drain` (`/drain`). -/
def drain (now : Clock) (f : Faults) (m : Marker) : Outcome :=
  let err := os.Stat f m
  if os.IsNotExist err then
    let c := os.Create f m
    if c.2 ≠ none then ⟨c.1, [500]⟩
    else
      let w := os.WriteString f c.1 (fmt.Sprint (time.Now now).Unix)
      if w.2 ≠ none then ⟨w.1, [500]⟩
      else ⟨w.1, []⟩
  else ⟨m, []⟩

/-- Handler `stopDraining` (`/drain/stop`). -/
def stopDraining (f : Faults) (m : Marker) : Outcome :=
  let err := os.Stat f m
  if os.IsNotExist err then ⟨m, [200]⟩
  else
    let r := os.Remove f m
    if r.2 ≠ none then ⟨r.1, [500]⟩
    else ⟨r.1, [200]⟩

/-- Handler `drainStatus` (`/drain/status`). -/
def drainStatus (f : Faults) (m : Marker) : Outcome :=
  let err := os.Stat f m
  if err ≠ none then
    if os.IsNotExist err then ⟨m, [404]⟩
    else ⟨m, [500]⟩
  else ⟨m, [200]⟩

/-- Handler `isSafeToKill` (`/drain/safe_to_kill`).  The error returned by
`strconv.ParseInt` is assigned and never read. -/
def isSafeToKill (now : Clock) (f : Faults) (m : Marker) : Outcome :=
  let err := os.Stat f m
  if os.IsNotExist err then ⟨m, [400]⟩
  else if err ≠ none then ⟨m, [500]⟩
  else
    let rd := ioutil.ReadFile f m
    if rd.2 ≠ none then ⟨m, [500]⟩
    else
      let i := (strconv.ParseInt rd.1).1
      let tm := time.Unix i 0
      let duration := time.Since now tm
      if time.secondsGt (time.Duration.Seconds duration) 2 then ⟨m, [200]⟩
      else ⟨m, [400]⟩

/-! ## Specification-level definitions -/

/-- Decimal digits of a natural number, most significant first, as ASCII bytes. -/
def natDecimal (n : Nat) : List Nat :=
  if n = 0 then [48] else (Nat.digits 10 n).reverse.map (fun d => 48 + d)

/-- The decimal string of an integer: a minus sign for negative numbers, then the digits
of the absolute value, without padding. -/
def decimal (v : Int) : List Nat :=
  if v < 0 then 45 :: natDecimal v.natAbs else natDecimal v.natAbs

/-- A byte that is an ASCII decimal digit. -/
def isDigit (c : Nat) : Bool := 48 ≤ c ∧ c ≤ 57

/-- Decimal-integer syntax: an optional sign (`+` or `-`) followed by one or more
decimal digits. -/
def IsDecimalInteger (s : List Nat) : Bool :=
  match s with
  | [] => false
  | c :: rest =>
    if c = 43 ∨ c = 45 then (!rest.isEmpty) && rest.all isDigit
    else s.all isDigit

/-- The instant of a clock reading, in nanoseconds since the Unix epoch. -/
def Clock.unixNano (c : Clock) : Int := c.sec * 1000000000 + c.nsec

/-- Clock readings that `time.Now()` represents without wrapping: the seconds are an
`int64` that stays one after the shift to the year-1 origin of `time.Time`, and the
nanoseconds are within the second. -/
def Clock.Valid (c : Clock) : Prop :=
  minInt64 ≤ c.sec ∧ c.sec + time.unixToInternal ≤ maxInt64 ∧ 0 ≤ c.nsec ∧ c.nsec < 1000000000

instance (c : Clock) : Decidable c.Valid := by unfold Clock.Valid; infer_instance

/-- Wall-clock time elapsed at the reading `now` since `ts` seconds after the Unix epoch,
in nanoseconds. -/
def elapsed (now : Clock) (ts : Int) : Int := now.unixNano - ts * 1000000000

/-- The value `addSec` stores: the exact sum when it is an `int64`, otherwise the
saturation bound. -/
def satSec (s : Int) : Int :=
  if s > 9223372036854775807 then 9223372036854775807
  else if s < -9223372036854775808 then -9223372036854775807 else s

/-- A duration clamped to the range of `time.Duration`. -/
def clampDuration (d : Int) : Int :=
  if d > 9223372036854775807 then time.maxDuration
  else if d < -9223372036854775808 then time.minDuration
  else d

/-! ## Lemmas: integer arithmetic and `time` -/

open time strconv

theorem tdiv_billion (d : Int) :
    Int.tdiv d 1000000000 = if 0 ≤ d then d / 1000000000 else -((-d) / 1000000000) := by
  split
  · next h => exact Int.tdiv_eq_ediv h (by decide)
  · next h =>
    have h1 : d = -(-d) := by omega
    rw [h1, Int.neg_tdiv, Int.tdiv_eq_ediv (by omega) (by decide)]
    simp

theorem tmod_billion (d : Int) :
    Int.tmod d 1000000000 = d - 1000000000 * Int.tdiv d 1000000000 := by
  have := Int.tmod_add_tdiv d 1000000000
  omega

theorem addSec_eq (usec n e : Int)
    (hu1 : -9223372036854775808 ≤ usec) (hu2 : usec ≤ 9223372036854775807)
    (he1 : -9223372036854775808 ≤ e) (he2 : e ≤ 9223372036854775807) :
    Time.addSec ⟨usec, n⟩ e = ⟨satSec (usec + e), n⟩ := by
  unfold Time.addSec satSec wrapInt64
  simp only [decide_eq_decide]
  split_ifs <;> simp <;> omega

theorem Add_eq (usec d : Int)
    (hu1 : -9223372036854775808 ≤ usec) (hu2 : usec ≤ 9223372036854775807)
    (hd1 : -9223372036854775808 ≤ d) (hd2 : d ≤ 9223372036854775807) :
    Time.Add ⟨usec, 0⟩ d = ⟨satSec (usec + d / 1000000000), d % 1000000000⟩ := by
  have hp : (if (0 : Int) + Int.tmod d 1000000000 ≥ 1000000000 then
        (wrapInt64 (Int.tdiv d 1000000000 + 1), 0 + Int.tmod d 1000000000 - 1000000000)
      else if 0 + Int.tmod d 1000000000 < 0 then
        (wrapInt64 (Int.tdiv d 1000000000 - 1), 0 + Int.tmod d 1000000000 + 1000000000)
      else (Int.tdiv d 1000000000, 0 + Int.tmod d 1000000000)) =
      (d / 1000000000, d % 1000000000) := by
    simp only [tmod_billion, tdiv_billion, wrapInt64]
    split_ifs <;> (apply Prod.ext <;> simp only <;> omega)
  unfold Time.Add
  simp only [hp]
  exact addSec_eq usec _ _ hu1 hu2 (by omega) (by omega)

theorem rawDiff (x n : Int) :
    -9223372036854775808 ≤ wrapInt64 (wrapInt64 (wrapInt64 x * 1000000000) + (n - 0)) ∧
    wrapInt64 (wrapInt64 (wrapInt64 x * 1000000000) + (n - 0)) ≤ 9223372036854775807 ∧
    (wrapInt64 (wrapInt64 (wrapInt64 x * 1000000000) + (n - 0)) - (x * 1000000000 + n))
      % 18446744073709551616 = 0 := by
  unfold wrapInt64
  refine ⟨?_, ?_, ?_⟩ <;> omega

theorem subAux_mid (D d : Int)
    (hq1 : -9223372036854775808 ≤ d) (hq2 : d ≤ 9223372036854775807)
    (hq : (d - D) % 18446744073709551616 = 0)
    (h1 : ¬ D > 9223372036854775807) (h2 : ¬ D < -9223372036854775808) : d = D := by
  omega

theorem subAux_split (x tn e r : Int) (hn1 : 0 ≤ tn) (hn2 : tn < 1000000000)
    (hr1 : 0 ≤ r) (hr2 : r < 1000000000)
    (h : 1000000000 * e + r = x * 1000000000 + tn) : e = x ∧ r = tn := by
  constructor <;> omega

theorem subAux_hi (tsec usec tn d e r : Int)
    (ht2 : tsec ≤ 9223372036854775807) (hu1 : -9223372036854775808 ≤ usec)
    (hn1 : 0 ≤ tn) (hn2 : tn < 1000000000)
    (hq2 : d ≤ 9223372036854775807)
    (he : d = 1000000000 * e + r)
    (h1 : (tsec - usec) * 1000000000 + tn > 9223372036854775807) :
    ¬ (satSec (usec + e) = tsec ∧ r = tn) := by
  rintro ⟨ha, hb⟩
  unfold satSec at ha
  split_ifs at ha with c1 c2
  · subst ha; subst hb
    have : e ≥ 9223372036854775807 - usec + 1 := by omega
    clear c1 ht2 hu1
    omega
  · subst ha
    clear c1 c2 he hq2 hb ht2
    omega
  · subst hb
    have : e = tsec - usec := by omega
    subst this
    clear c1 c2 ht2 hu1 hn1 hn2
    omega

theorem subAux_lo (tsec usec tn d e r : Int)
    (ht1 : -9223372036854775808 ≤ tsec) (hu2 : usec ≤ 9223372036854775807)
    (hn1 : 0 ≤ tn) (hn2 : tn < 1000000000)
    (hq1 : -9223372036854775808 ≤ d)
    (he : d = 1000000000 * e + r)
    (h2 : (tsec - usec) * 1000000000 + tn < -9223372036854775808) :
    ¬ (satSec (usec + e) = tsec ∧ r = tn) := by
  rintro ⟨ha, hb⟩
  unfold satSec at ha
  split_ifs at ha with c1 c2
  · subst ha
    clear c1 he hq1 hb ht1
    omega
  · subst ha; subst hb
    have : e ≤ -9223372036854775807 - usec - 2 := by omega
    clear c1 c2 ht1 hu2
    omega
  · subst hb
    have : e = tsec - usec := by omega
    subst this
    clear c1 c2 ht1 hu2 hn1 hn2
    omega

theorem Sub_in_range (tsec tn usec : Int)
    (ht1 : -9223372036854775808 ≤ tsec) (ht2 : tsec ≤ 9223372036854775807)
    (hu1 : -9223372036854775808 ≤ usec) (hu2 : usec ≤ 9223372036854775807)
    (hn1 : 0 ≤ tn) (hn2 : tn < 1000000000) :
    Time.Sub ⟨tsec, tn⟩ ⟨usec, 0⟩ =
      if (tsec - usec) * 1000000000 + tn > 9223372036854775807 then maxDuration
      else if (tsec - usec) * 1000000000 + tn < -9223372036854775808 then minDuration
      else (tsec - usec) * 1000000000 + tn := by
  obtain ⟨hq1, hq2, hq⟩ := rawDiff (tsec - usec) tn
  unfold Time.Sub
  simp only [Second]
  generalize wrapInt64 (wrapInt64 (wrapInt64 (tsec - usec) * 1000000000) + (tn - 0)) = d at *
  rw [Add_eq usec _ hu1 hu2 hq1 hq2]
  unfold Time.Equal Time.Before maxDuration minDuration
  simp only [Bool.decide_and, Bool.decide_or, Bool.and_eq_true, Bool.or_eq_true, decide_eq_true_eq]
  have he : d = 1000000000 * (d / 1000000000) + d % 1000000000 :=
    (Int.ediv_add_emod d 1000000000).symm
  have hr1 : 0 ≤ d % 1000000000 := Int.emod_nonneg d (by decide)
  have hr2 : d % 1000000000 < 1000000000 := Int.emod_lt_of_pos d (by decide)
  by_cases h1 : (tsec - usec) * 1000000000 + tn > 9223372036854775807
  · have hne := subAux_hi tsec usec tn d _ _ ht2 hu1 hn1 hn2 hq2 he h1
    have hb : ¬ (tsec < usec ∨ tsec = usec ∧ tn < 0) := by
      clear hne he hr1 hr2 hq hq1 hq2 ht1 ht2 hu1 hu2
      omega
    rw [if_neg hne, if_neg hb, if_pos h1]
  · by_cases h2 : (tsec - usec) * 1000000000 + tn < -9223372036854775808
    · have hne := subAux_lo tsec usec tn d _ _ ht1 hu2 hn1 hn2 hq1 he h2
      have hb : (tsec < usec ∨ tsec = usec ∧ tn < 0) := by
        clear hne he hr1 hr2 hq hq1 hq2 ht1 ht2 hu1 hu2
        omega
      rw [if_neg hne, if_pos hb, if_neg h1, if_pos h2]
    · have hd : d = (tsec - usec) * 1000000000 + tn := subAux_mid _ d hq1 hq2 hq h1 h2
      have hs := subAux_split (tsec - usec) tn _ _ hn1 hn2 hr1 hr2 (by rw [← he, hd])
      have he2 : satSec (usec + d / 1000000000) = tsec ∧ d % 1000000000 = tn := by
        refine ⟨?_, hs.2⟩
        rw [hs.1]
        unfold satSec
        clear hs he hr1 hr2 hq hq1 hq2 hd h1 h2
        split_ifs <;> omega
      rw [if_pos he2, if_neg h1, if_neg h2, hd]

/-! ## Lemmas: `fmt` and `strconv` -/

theorem natDecimal_small (u : Nat) (h : u < 10) : natDecimal u = [48 + u] := by
  unfold natDecimal
  split
  · next h0 => subst h0; rfl
  · next h0 =>
    rw [Nat.digits_of_lt 10 u h0 h]
    rfl

theorem natDecimal_step (u : Nat) (h : 10 ≤ u) :
    natDecimal u = natDecimal (u / 10) ++ [48 + u % 10] := by
  unfold natDecimal
  have h1 : u ≠ 0 := by omega
  have h2 : u / 10 ≠ 0 := by omega
  rw [if_neg h1, if_neg h2, Nat.digits_def' (by decide) (by omega)]
  simp

theorem ldigits_getD (u : Nat) (h : u < 10) : fmt.ldigits.getD u 0 = 48 + u := by
  interval_cases u <;> rfl

theorem fmtIntegerLoop_spec (i : Nat) : ∀ (u : Nat) (buf : List Nat), u < 10 ^ (i + 1) →
    fmt.ldigits.getD (fmt.fmtIntegerLoop i u buf).1 0 :: (fmt.fmtIntegerLoop i u buf).2 =
      natDecimal u ++ buf := by
  induction i with
  | zero =>
    intro u buf h
    simp only [fmt.fmtIntegerLoop]
    rw [ldigits_getD u (by simpa using h), natDecimal_small u (by simpa using h)]
    rfl
  | succ i ih =>
    intro u buf h
    unfold fmt.fmtIntegerLoop
    split
    · next h10 =>
      have hlt : u / 10 < 10 ^ (i + 1) := by
        rw [Nat.div_lt_iff_lt_mul (by decide)]
        calc u < 10 ^ (i + 1 + 1) := h
          _ = 10 ^ (i + 1) * 10 := by ring
      simp only []
      rw [ih (u / 10) _ hlt, natDecimal_step u h10]
      have : 48 + u - u / 10 * 10 = 48 + u % 10 := by omega
      rw [this]
      simp
    · next h10 =>
      have h10 : u < 10 := by omega
      rw [ldigits_getD u h10, natDecimal_small u h10]
      rfl

theorem fmtInteger_eq_decimal (v : Int) (hv : IsInt64 v) : fmt.fmtInteger v = decimal v := by
  unfold IsInt64 minInt64 maxInt64 at hv
  unfold fmt.fmtInteger decimal
  by_cases hneg : v < 0
  · have hu : wrapUint64 (18446744073709551616 - (v % 18446744073709551616).toNat) = v.natAbs := by
      unfold wrapUint64
      omega
    simp only [hneg, decide_True, if_true, hu]
    rw [fmtIntegerLoop_spec 68 v.natAbs [] (by omega)]
    simp
  · have hu : (v % 18446744073709551616).toNat = v.natAbs := by omega
    simp only [hneg, decide_False, Bool.false_eq_true, if_false, hu]
    rw [fmtIntegerLoop_spec 68 v.natAbs [] (by omega)]
    simp

theorem ParseUintLoop_digit (d n : Nat) (cs : List Nat) (hd : d < 10)
    (hn : n * 10 + d ≤ maxUint64) :
    ParseUintLoop ((48 + d) :: cs) n = ParseUintLoop cs (n * 10 + d) := by
  unfold maxUint64 at hn
  rw [ParseUintLoop]
  have h1 : 48 ≤ 48 + d ∧ 48 + d ≤ 57 := by omega
  have h2 : 48 + d - 48 = d := by omega
  have h3 : ¬ d ≥ 10 := by omega
  have h4 : ¬ n ≥ maxUint64 / 10 + 1 := by unfold maxUint64; omega
  have h5 : wrapUint64 (n * 10) = n * 10 := by unfold wrapUint64; omega
  have h6 : wrapUint64 (n * 10 + d) = n * 10 + d := by unfold wrapUint64; omega
  have h7 : ¬ (n * 10 + d < n * 10 ∨ n * 10 + d > maxUint64) := by unfold maxUint64; omega
  simp only [h1, and_self, if_true, h2, h3, h4, h5, h6, h7, if_false]

theorem ParseUintLoop_append (xs ys : List Nat) : ∀ (n v : Nat),
    ParseUintLoop xs n = (v, none) → ParseUintLoop (xs ++ ys) n = ParseUintLoop ys v := by
  induction xs with
  | nil =>
    intro n v h
    simp only [ParseUintLoop, Prod.mk.injEq, and_true] at h
    simp [h]
  | cons c cs ih =>
    intro n v h
    rw [List.cons_append, ParseUintLoop]
    rw [ParseUintLoop] at h
    revert h
    simp only []
    split
    · intro h; simp at h
    · split_ifs
      · intro h; simp at h
      · intro h; simp at h
      · intro h; simp at h
      · intro h; exact ih _ _ h

theorem ParseUintLoop_natDecimal (u : Nat) : u ≤ maxUint64 →
    ParseUintLoop (natDecimal u) 0 = (u, none) := by
  induction u using Nat.strong_induction_on with
  | _ u ih =>
    intro hu
    by_cases h10 : u < 10
    · rw [natDecimal_small u h10, ParseUintLoop_digit u 0 [] h10 (by omega)]
      simp [ParseUintLoop]
    · have h10 : 10 ≤ u := by omega
      rw [natDecimal_step u h10]
      rw [ParseUintLoop_append _ _ 0 (u / 10) (ih (u / 10) (by omega) (by omega))]
      rw [ParseUintLoop_digit (u % 10) (u / 10) [] (by omega) (by omega)]
      simp only [ParseUintLoop]
      congr 1
      omega

theorem natDecimal_head (u : Nat) :
    ∃ c rest, natDecimal u = c :: rest ∧ 48 ≤ c ∧ c ≤ 57 := by
  induction u using Nat.strong_induction_on with
  | _ u ih =>
    by_cases h10 : u < 10
    · exact ⟨48 + u, [], natDecimal_small u h10, by omega, by omega⟩
    · obtain ⟨c, rest, h, h1, h2⟩ := ih (u / 10) (by omega)
      refine ⟨c, rest ++ [48 + u % 10], ?_, h1, h2⟩
      rw [natDecimal_step u (by omega), h]
      rfl

theorem ParseInt_unsigned (c : Nat) (rest : List Nat) (un : Nat) (h43 : c ≠ 43) (h45 : c ≠ 45)
    (hp : ParseUint (c :: rest) = (un, none)) (hun : un < 9223372036854775808) :
    ParseInt (c :: rest) = ((un : Int), none) := by
  have hw : wrapInt64 (un : Int) = un := by unfold wrapInt64; omega
  have h1 : ¬ (un ≥ 9223372036854775808) := by omega
  simp [ParseInt, hp, h43, h45, hw, h1]

theorem ParseInt_minus (rest : List Nat) (un : Nat)
    (hp : ParseUint rest = (un, none)) (hun : un ≤ 9223372036854775808) :
    ParseInt (45 :: rest) = (-(un : Int), none) := by
  have hw : wrapInt64 (-wrapInt64 (un : Int)) = -(un : Int) := by unfold wrapInt64; omega
  have h1 : ¬ (un > 9223372036854775808) := by omega
  simp [ParseInt, hp, hw, h1]

theorem ParseUint_natDecimal (u : Nat) (hu : u ≤ maxUint64) :
    ParseUint (natDecimal u) = (u, none) := by
  obtain ⟨c, rest, hc, _, _⟩ := natDecimal_head u
  have hne : natDecimal u ≠ [] := by rw [hc]; simp
  rw [ParseUint, if_neg hne]
  exact ParseUintLoop_natDecimal u hu

theorem ParseInt_decimal (v : Int) (hv : IsInt64 v) : ParseInt (decimal v) = (v, none) := by
  unfold IsInt64 minInt64 maxInt64 at hv
  unfold decimal
  have hp := ParseUint_natDecimal v.natAbs (by unfold maxUint64; omega)
  by_cases hneg : v < 0
  · rw [if_pos hneg, ParseInt_minus _ _ hp (by omega)]
    congr 1
    omega
  · rw [if_neg hneg]
    obtain ⟨c, rest, hc, hc1, hc2⟩ := natDecimal_head v.natAbs
    rw [hc] at hp ⊢
    rw [ParseInt_unsigned c rest _ (by omega) (by omega) hp (by omega)]
    congr 1
    omega

theorem ParseUintLoop_cons (c : Nat) (cs : List Nat) (n : Nat) :
    ParseUintLoop (c :: cs) n =
      if 48 ≤ c ∧ c ≤ 57 then
        if n ≥ maxUint64 / 10 + 1 then (maxUint64, some .ErrRange)
        else if wrapUint64 (wrapUint64 (n * 10) + (c - 48)) < wrapUint64 (n * 10) ∨
            wrapUint64 (wrapUint64 (n * 10) + (c - 48)) > maxUint64 then
          (maxUint64, some .ErrRange)
        else ParseUintLoop cs (wrapUint64 (wrapUint64 (n * 10) + (c - 48)))
      else (0, some .ErrSyntax) := by
  rw [ParseUintLoop]
  by_cases hc : 48 ≤ c ∧ c ≤ 57
  · have h10 : ¬ (c - 48 ≥ 10) := by omega
    simp only [hc, and_self, if_true, h10, if_false]
  · by_cases hl : 97 ≤ lower c ∧ lower c ≤ 122
    · have h10 : lower c - 97 + 10 ≥ 10 := by omega
      simp only [hc, hl, and_self, if_true, if_false, h10]
    · simp only [hc, hl, if_false]

theorem ParseUintLoop_ok_digits (s : List Nat) : ∀ (n v : Nat),
    ParseUintLoop s n = (v, none) → s.all isDigit = true := by
  induction s with
  | nil => intro n v _; rfl
  | cons c cs ih =>
    intro n v h
    rw [ParseUintLoop_cons] at h
    split_ifs at h with hc h1 h2
    · simp at h
    · simp at h
    · have := ih _ _ h
      simp [isDigit, hc, this]
    · simp at h

theorem ParseUintLoop_range (s : List Nat) : ∀ (n v : Nat),
    ParseUintLoop s n = (v, some .ErrRange) → v = maxUint64 := by
  induction s with
  | nil => intro n v h; simp [ParseUintLoop] at h
  | cons c cs ih =>
    intro n v h
    rw [ParseUintLoop_cons] at h
    split_ifs at h with hc h1 h2
    · simp at h; exact h.symm
    · simp at h; exact h.symm
    · exact ih _ _ h
    · simp at h

theorem ParseUint_ok_digits (s : List Nat) (v : Nat) (h : ParseUint s = (v, none)) :
    s ≠ [] ∧ s.all isDigit = true := by
  unfold ParseUint at h
  split_ifs at h with h0
  · simp at h
  · exact ⟨h0, ParseUintLoop_ok_digits s 0 v h⟩

theorem ParseUint_range (s : List Nat) (v : Nat) (h : ParseUint s = (v, some .ErrRange)) :
    v = maxUint64 := by
  unfold ParseUint at h
  split_ifs at h with h0
  · simp at h
  · exact ParseUintLoop_range s 0 v h

theorem wrapInt64_isInt64 (x : Int) : IsInt64 (wrapInt64 x) := by
  unfold IsInt64 minInt64 maxInt64 wrapInt64
  omega

theorem ParseInt_cases (s : List Nat) :
    ParseInt s = (0, some .ErrSyntax) ∨
    ParseInt s = (9223372036854775807, some .ErrRange) ∨
    ParseInt s = (-9223372036854775808, some .ErrRange) ∨
    (∃ v, ParseInt s = (v, none) ∧ IsInt64 v ∧ IsDecimalInteger s = true) := by
  cases s with
  | nil => left; rfl
  | cons c rest =>
    rw [ParseInt]
    simp only []
    generalize hr : ParseUint (if c = 43 then rest else if c = 45 then rest else c :: rest) = r
    obtain ⟨un, err⟩ := r
    cases err with
    | some e =>
      cases e with
      | ErrSyntax => left; simp
      | ErrRange =>
        have hun := ParseUint_range _ _ hr
        subst hun
        by_cases hneg : c = 45
        · right; right; left
          simp [hneg, maxUint64]
        · right; left
          simp [hneg, maxUint64]
    | none =>
      obtain ⟨hne, hall⟩ := ParseUint_ok_digits _ _ hr
      by_cases hneg : c = 45
      · subst hneg
        simp only [show ¬ ((45 : Nat) = 43) by decide, if_false, if_true] at hne hall
        by_cases hun : un > 9223372036854775808
        · right; right; left
          simp [hun]
        · right; right; right
          refine ⟨wrapInt64 (-wrapInt64 (un : Int)), ?_, wrapInt64_isInt64 _, ?_⟩
          · simp [hun]
          · simp [IsDecimalInteger, hall, hne]
      · by_cases hun : un ≥ 9223372036854775808
        · right; left
          simp [hneg, hun]
        · right; right; right
          refine ⟨wrapInt64 (un : Int), ?_, wrapInt64_isInt64 _, ?_⟩
          · simp [hneg, hun]
          · by_cases h43 : c = 43
            · subst h43
              simp only [if_true] at hne hall
              simp [IsDecimalInteger, hall, hne]
            · simp only [h43, hneg, if_false] at hall
              simp only [IsDecimalInteger, h43, hneg, or_self, if_false]
              exact hall

/-! ## Lemmas: the clock and the elapsed time -/

theorem unixToInternal_eq : unixToInternal = 62135596800 := by decide

theorem Now_Unix (c : Clock) (h : IsInt64 c.sec) : (Now c).Unix = c.sec := by
  unfold IsInt64 minInt64 maxInt64 at h
  unfold Now Time.Unix internalToUnix wrapInt64
  rw [unixToInternal_eq]
  simp only []
  omega

theorem Now_of_valid (c : Clock) (h : c.Valid) : Now c = ⟨c.sec + 62135596800, c.nsec⟩ := by
  unfold Clock.Valid minInt64 maxInt64 at h
  rw [unixToInternal_eq] at h
  unfold Now wrapInt64
  rw [unixToInternal_eq]
  congr 1
  omega

theorem Unix_of_inRange (ts : Int) (h1 : minInt64 ≤ ts) (h2 : ts + unixToInternal ≤ maxInt64) :
    Unix ts 0 = ⟨ts + 62135596800, 0⟩ := by
  unfold minInt64 at h1
  unfold maxInt64 at h2
  rw [unixToInternal_eq] at h2
  unfold Unix wrapInt64
  rw [unixToInternal_eq]
  simp only [lt_irrefl, show ¬ ((0 : Int) ≥ 1000000000) by decide, or_self, if_false]
  congr 1
  omega

theorem secondsGt_Seconds (d : Int) (k : Int) :
    secondsGt (Duration.Seconds d) k = decide (d > k * 1000000000) := by
  unfold secondsGt Duration.Seconds
  simp only [tmod_billion]
  congr 1
  apply propext
  constructor <;> intro h <;> omega

theorem Since_eq_clamp (c : Clock) (ts : Int) (hc : c.Valid)
    (h1 : minInt64 ≤ ts) (h2 : ts + unixToInternal ≤ maxInt64) :
    Since c (Unix ts 0) = clampDuration (elapsed c ts) := by
  rw [Since, Now_of_valid c hc, Unix_of_inRange ts h1 h2]
  unfold Clock.Valid minInt64 maxInt64 at hc
  rw [unixToInternal_eq] at hc h2
  unfold minInt64 at h1
  unfold maxInt64 at h2
  rw [Sub_in_range _ _ _ (by omega) (by omega) (by omega) (by omega) hc.2.2.1 hc.2.2.2]
  have he : (c.sec + 62135596800 - (ts + 62135596800)) * 1000000000 + c.nsec = elapsed c ts := by
    unfold elapsed Clock.unixNano
    omega
  rw [he]
  rfl

theorem safe_iff_elapsed (c : Clock) (ts : Int) (hc : c.Valid)
    (h1 : minInt64 ≤ ts) (h2 : ts + unixToInternal ≤ maxInt64) :
    secondsGt (Duration.Seconds (Since c (Unix ts 0))) 2 = decide (elapsed c ts > 2000000000) := by
  rw [Since_eq_clamp c ts hc h1 h2, secondsGt_Seconds]
  congr 1
  apply propext
  unfold clampDuration maxDuration minDuration
  split_ifs <;> constructor <;> intro h <;> omega

/-! ## Lemmas: the handlers -/

theorem isSafeToKill_readable (now : Clock) (f : Faults) (c : List Nat)
    (hs : f.stat = false) (hr : f.read = false) :
    isSafeToKill now f (some c) =
      ⟨some c, if secondsGt (Duration.Seconds (Since now (Unix (strconv.ParseInt c).1 0))) 2
        then [200] else [400]⟩ := by
  simp only [isSafeToKill, os.Stat, os.IsNotExist, ioutil.ReadFile, hs, hr]
  simp
  split_ifs <;> rfl

theorem drain_fresh (now : Clock) (f : Faults) (hsec : IsInt64 now.sec)
    (hs : f.stat = false) (hc : f.create = false) (hw : f.write = none) :
    drain now f none = ⟨some (decimal now.sec), []⟩ := by
  simp [drain, os.Stat, os.IsNotExist, os.Create, os.WriteString, hs, hc, hw, fmt.Sprint,
    Now_Unix now hsec, fmtInteger_eq_decimal now.sec hsec]

/-- A check at most one second after the drain falls within two seconds of the whole
second in which the drain happened. -/
theorem within_one_second (t0 t1 : Clock) (h0 : t0.Valid)
    (h : t1.unixNano - t0.unixNano ≤ 1000000000) :
    t1.unixNano - t0.sec * 1000000000 ≤ 2000000000 := by
  have hn : t0.nsec < 1000000000 := h0.2.2.2
  unfold Clock.unixNano at h ⊢
  omega

/-- At the largest `int64` the shift of `time.Unix` wraps to a time far in the past, so
at every valid clock reading after the epoch the measured duration exceeds 2 seconds. -/
theorem safe_of_maxInt64 (c : Clock) (hc : c.Valid) (h : c.unixNano > 2000000000) :
    secondsGt (Duration.Seconds (Since c (Unix 9223372036854775807 0))) 2 = true := by
  have hu : Unix 9223372036854775807 0 = ⟨-9223371974719179009, 0⟩ := by decide
  rw [Since, Now_of_valid c hc, hu]
  unfold Clock.Valid minInt64 maxInt64 at hc
  rw [unixToInternal_eq] at hc
  obtain ⟨hc1, hc2, hn1, hn2⟩ := hc
  unfold Clock.unixNano at h
  have hsec : 2 ≤ c.sec := by omega
  rw [Sub_in_range _ _ _ (by omega) (by omega) (by decide) (by decide) hn1 hn2,
    secondsGt_Seconds]
  have hbig : (c.sec + 62135596800 - -9223371974719179009) * 1000000000 + c.nsec
      > 9223372036854775807 := by
    clear h hc1 hc2 hn2
    omega
  rw [if_pos hbig]
  decide

/-- At the smallest `int64` the timestamp lies so far in the past that at every valid
clock reading after the epoch the measured duration exceeds 2 seconds. -/
theorem safe_of_minInt64 (c : Clock) (hc : c.Valid) (h : c.unixNano > 2000000000) :
    secondsGt (Duration.Seconds (Since c (Unix (-9223372036854775808) 0))) 2 = true := by
  rw [safe_iff_elapsed c _ hc (by decide) (by decide)]
  have hn2 : c.nsec < 1000000000 := hc.2.2.2
  unfold elapsed
  unfold Clock.unixNano at h ⊢
  simp only [decide_eq_true_eq]
  omega

/-! ## The handlers' contracts -/

/-- C1. `drainStatus` writes exactly one status code, chosen by the result of the
existence probe alone: 404 when the probe reports the marker missing, 200 when the probe
succeeds, 500 when it fails with any other error; the marker is left as it was.  In terms
of the file: with a working probe an absent marker gives 404 and a present marker gives
200 whatever its content, and a failing probe gives 500. -/
theorem drainStatus_by_probe (f : Faults) (m : Marker) :
    drainStatus f m =
      ⟨m, [match os.Stat f m with
            | some .notExist => 404
            | none => 200
            | some .other => 500]⟩ ∧
    (drainStatus { f with stat := false } none).written = [404] ∧
    (∀ content, (drainStatus { f with stat := false } (some content)).written = [200]) ∧
    (drainStatus { f with stat := true } m).written = [500] := by
  refine ⟨?_, ?_, ?_, ?_⟩
  · cases m <;> cases hf : f.stat <;> simp [drainStatus, os.Stat, os.IsNotExist, hf]
  · simp [drainStatus, os.Stat, os.IsNotExist]
  · intro content
    simp [drainStatus, os.Stat, os.IsNotExist]
  · simp [drainStatus, os.Stat, os.IsNotExist]

/-- C2. When the marker is absent, the probe reports it missing and creation and writing
succeed, `drain` at the clock reading `now` leaves the marker present with content the
decimal string of `now.sec` (the Unix time in whole seconds: no padding, no trailing
newline) and writes no status; a `drainStatus` call made afterwards, with a working
probe, writes 200. -/
theorem drain_creates_marker (now : Clock) (f : Faults) (hsec : IsInt64 now.sec)
    (hprobe : f.stat = false) (hcreate : f.create = false) (hwrite : f.write = none) :
    drain now f none = ⟨some (decimal now.sec), []⟩ ∧
    (∀ f2 : Faults, f2.stat = false →
      (drainStatus f2 (drain now f none).marker).written = [200]) := by
  have h := drain_fresh now f hsec hprobe hcreate hwrite
  refine ⟨h, ?_⟩
  intro f2 h2
  rw [h]
  simp [drainStatus, os.Stat, os.IsNotExist, h2]

/-- Witness for C2: a drain at 1700000000.9 s creates the marker `1700000000`. -/
theorem drain_creates_marker_witness :
    drain ⟨1700000000, 900000000⟩ Faults.none none = ⟨some (bytes "1700000000"), []⟩ ∧
    (drainStatus Faults.none (drain ⟨1700000000, 900000000⟩ Faults.none none).marker).written
      = [200] := by
  have h := drain_creates_marker ⟨1700000000, 900000000⟩ Faults.none (by decide) rfl rfl rfl
  exact ⟨by decide, h.2 Faults.none rfl⟩

/-- C3. Start-drain is idempotent.  With the marker present with content `c`, `drain`
leaves it present with content `c` and writes no status, at every clock reading and
under every failure pattern.  Consequently a second `drain`, at any later reading,
leaves the marker as the first call left it: always when the environment is the same
for both calls, and under any environment once the first call has left a marker. -/
theorem drain_idempotent (c : List Nat) (t1 t2 : Clock) (f f2 : Faults) (m : Marker) :
    drain t1 f (some c) = ⟨some c, []⟩ ∧
    (drain t2 f (drain t1 f m).marker).marker = (drain t1 f m).marker ∧
    ((drain t1 f m).marker ≠ none →
      (drain t2 f2 (drain t1 f m).marker).marker = (drain t1 f m).marker) := by
  have key : ∀ (t : Clock) (g : Faults) (x : List Nat), drain t g (some x) = ⟨some x, []⟩ := by
    intro t g x
    cases hg : g.stat <;> simp [drain, os.Stat, os.IsNotExist, hg]
  refine ⟨key t1 f c, ?_, ?_⟩
  · cases hm : (drain t1 f m).marker with
    | some x => rw [key]
    | none =>
      cases m with
      | some x => rw [key] at hm; simp at hm
      | none =>
        revert hm
        cases hs : f.stat <;> cases hc : f.create <;> cases hw : f.write <;>
          simp [drain, os.Stat, os.IsNotExist, os.Create, os.WriteString, hs, hc, hw]
  · intro hne
    cases hm : (drain t1 f m).marker with
    | some x => rw [key]
    | none => exact absurd hm hne

/-- C4. `stopDraining`: when the probe reports the marker missing it writes 200 and the
marker stays absent; otherwise it attempts the deletion and writes 200 when that
succeeds, leaving the marker absent, and 500 when it fails, leaving the marker as it
was.  It writes exactly one status, 200 or 500, and after a 200 a `drainStatus` call
with a working probe writes 404. -/
theorem stopDraining_contract (f : Faults) (m : Marker) :
    stopDraining f m =
      (if os.IsNotExist (os.Stat f m) then ⟨none, [200]⟩
       else if (os.Remove f m).2 = none then ⟨none, [200]⟩
       else ⟨m, [500]⟩) ∧
    (os.IsNotExist (os.Stat f m) = true → m = none) ∧
    ((stopDraining f m).written = [200] ∨ (stopDraining f m).written = [500]) ∧
    (∀ f2 : Faults, f2.stat = false → (stopDraining f m).written = [200] →
      (drainStatus f2 (stopDraining f m).marker).written = [404]) := by
  refine ⟨?_, ?_, ?_, ?_⟩
  · cases m <;> cases hs : f.stat <;> cases hr : f.remove <;>
      simp [stopDraining, os.Stat, os.IsNotExist, os.Remove, hs, hr]
  · cases m <;> cases hs : f.stat <;> simp [os.Stat, os.IsNotExist, hs]
  · cases m <;> cases hs : f.stat <;> cases hr : f.remove <;>
      simp [stopDraining, os.Stat, os.IsNotExist, os.Remove, hs, hr]
  · intro f2 h2
    cases m <;> cases hs : f.stat <;> cases hr : f.remove <;>
      simp [stopDraining, drainStatus, os.Stat, os.IsNotExist, os.Remove, hs, hr, h2]

/-- C9. `drain` writes status 500 exactly when the probe reported the marker missing and
then creating the marker or writing the timestamp failed; on every other path (marker
present, creation and write both succeed, probe failing with another error) it writes
nothing, so the client receives the default 200.  It never writes more than one
status. -/
theorem drain_written (now : Clock) (f : Faults) (m : Marker) :
    (drain now f m).written =
      (if os.Stat f m = some .notExist ∧
          ((os.Create f m).2 ≠ none ∨
            (os.WriteString f (os.Create f m).1 (fmt.Sprint (time.Now now).Unix)).2 ≠ none)
        then [500] else []) ∧
    (drain now f m).written.length ≤ 1 ∧
    ((drain now f m).written = [] → (drain now f m).status = 200) ∧
    ((drain now f m).written = [500] ↔
      (f.stat = false ∧ m = none ∧ (f.create = true ∨ f.write ≠ none))) := by
  refine ⟨?_, ?_, ?_, ?_⟩
  · cases m <;> cases hs : f.stat <;> cases hc : f.create <;> cases hw : f.write <;>
      simp [drain, os.Stat, os.IsNotExist, os.Create, os.WriteString, hs, hc, hw]
  · cases m <;> cases hs : f.stat <;> cases hc : f.create <;> cases hw : f.write <;>
      simp [drain, os.Stat, os.IsNotExist, os.Create, os.WriteString, hs, hc, hw]
  · intro h
    simp [Outcome.status, h]
  · cases m <;> cases hs : f.stat <;> cases hc : f.create <;> cases hw : f.write <;>
      simp [drain, os.Stat, os.IsNotExist, os.Create, os.WriteString, hs, hc, hw]

/-- C5 (counterexample). The marker holds 9223372036854775807, a valid base-10 64-bit
integer that lies in the future of the clock reading 1700000000 s, and `isSafeToKill`
writes 200: `time.Unix` shifts the seconds to the year-1 origin in `int64`, the sum
wraps to a time far in the past, and `time.Since` saturates at `maxDuration`. -/
theorem isSafeToKill_future_timestamp_safe :
    strconv.ParseInt (bytes "9223372036854775807") = (9223372036854775807, none) ∧
    elapsed ⟨1700000000, 0⟩ 9223372036854775807 < 0 ∧
    (isSafeToKill ⟨1700000000, 0⟩ Faults.none (some (bytes "9223372036854775807"))).written
      = [200] := by
  decide

/-- C5 (amended). At every valid clock reading `isSafeToKill` leaves the marker as it
was and writes 400 when the probe reports the marker missing, 500 when the probe fails
with another error or the content cannot be read, and, when the content parses without
error to a timestamp `ts` whose shift to the year-1 origin is still an `int64`
(`ts + 62135596800 ≤ 2 ^ 63 - 1`), 200 if the time elapsed since `ts` is strictly more
than 2 seconds and 400 otherwise; in particular 400 at exactly 2 seconds and for a
timestamp in the future. -/
theorem isSafeToKill_contract (now : Clock) (f : Faults) (m : Marker) (hnow : now.Valid) :
    (isSafeToKill now f m).marker = m ∧
    (os.Stat f m = some .notExist → (isSafeToKill now f m).written = [400]) ∧
    (os.Stat f m = some .other → (isSafeToKill now f m).written = [500]) ∧
    (os.Stat f m = none → (ioutil.ReadFile f m).2 ≠ none →
      (isSafeToKill now f m).written = [500]) ∧
    (∀ (c : List Nat) (ts : Int), m = some c → os.Stat f m = none →
      (ioutil.ReadFile f m).2 = none → strconv.ParseInt c = (ts, none) →
      ts + unixToInternal ≤ maxInt64 →
      (isSafeToKill now f m).written = (if elapsed now ts > 2000000000 then [200] else [400]) ∧
      (elapsed now ts = 2000000000 → (isSafeToKill now f m).written = [400]) ∧
      (elapsed now ts < 0 → (isSafeToKill now f m).written = [400])) := by
  refine ⟨?_, ?_, ?_, ?_, ?_⟩
  · cases m <;> cases hs : f.stat <;> cases hr : f.read <;>
      simp [isSafeToKill, os.Stat, os.IsNotExist, ioutil.ReadFile, hs, hr]
    split_ifs <;> rfl
  · cases m <;> cases hs : f.stat <;>
      simp [isSafeToKill, os.Stat, os.IsNotExist, hs]
  · cases m <;> cases hs : f.stat <;>
      simp [isSafeToKill, os.Stat, os.IsNotExist, hs]
  · cases m <;> cases hs : f.stat <;> cases hr : f.read <;>
      simp [isSafeToKill, os.Stat, os.IsNotExist, ioutil.ReadFile, hs, hr]
  · intro c ts hm hst hrd hp hts
    subst hm
    have hs : f.stat = false := by
      cases hs : f.stat
      · rfl
      · simp [os.Stat, hs] at hst
    have hr : f.read = false := by
      cases hr : f.read
      · rfl
      · simp [ioutil.ReadFile, hr] at hrd
    have hmin : minInt64 ≤ ts := by
      rcases ParseInt_cases c with h | h | h | ⟨v, h, hv, _⟩
      · rw [hp] at h; simp at h
      · rw [hp] at h; simp at h
      · rw [hp] at h; simp at h
      · rw [hp] at h
        have : ts = v := by simpa using h
        rw [this]
        exact hv.1
    have hw : (isSafeToKill now f (some c)).written =
        (if elapsed now ts > 2000000000 then [200] else [400]) := by
      rw [isSafeToKill_readable now f c hs hr, hp, safe_iff_elapsed now ts hnow hmin hts]
      simp
    refine ⟨hw, ?_, ?_⟩
    · intro h
      rw [hw, h]
      rfl
    · intro h
      rw [hw, if_neg (by omega)]

/-- Witness for C5 (amended): three seconds after the timestamp the answer is 200. -/
theorem isSafeToKill_contract_witness :
    (isSafeToKill ⟨1700000003, 0⟩ Faults.none (some (bytes "1700000000"))).written = [200] :=
  ((isSafeToKill_contract ⟨1700000003, 0⟩ Faults.none (some (bytes "1700000000"))
    (by decide)).2.2.2.2 (bytes "1700000000") 1700000000 rfl (by decide) (by decide)
    (by decide) (by decide)).1

/-- C6 (counterexample). A drain at 1700000000.9 s succeeds and writes the whole second
1700000000; a check at 1700000002.5 s, 1.6 s after the drain, writes 200. -/
theorem isSafeToKill_early_after_drain :
    Clock.unixNano ⟨1700000002, 500000000⟩ - Clock.unixNano ⟨1700000000, 900000000⟩
      = 1600000000 ∧
    drain ⟨1700000000, 900000000⟩ Faults.none none = ⟨some (bytes "1700000000"), []⟩ ∧
    (isSafeToKill ⟨1700000002, 500000000⟩ Faults.none
      (drain ⟨1700000000, 900000000⟩ Faults.none none).marker).written = [200] := by
  decide

/-- C6 (amended). With the marker absent at `t0`, if `drain` succeeds at `t0` and
`isSafeToKill` runs at `t1` with a working probe and read, no more than 2 seconds after
the whole second in which `t0` falls, then `isSafeToKill` writes 400. -/
theorem drain_then_isSafeToKill_within (t0 t1 : Clock) (f f2 : Faults)
    (h0 : t0.Valid) (h1 : t1.Valid)
    (hprobe : f.stat = false) (hcreate : f.create = false) (hwrite : f.write = none)
    (hprobe2 : f2.stat = false) (hread2 : f2.read = false)
    (hwin : t1.unixNano - t0.sec * 1000000000 ≤ 2000000000) :
    (isSafeToKill t1 f2 (drain t0 f none).marker).written = [400] := by
  have hsec : IsInt64 t0.sec := by
    unfold Clock.Valid at h0
    rw [unixToInternal_eq] at h0
    unfold IsInt64
    unfold maxInt64 at h0 ⊢
    refine ⟨h0.1, ?_⟩
    omega
  rw [drain_fresh t0 f hsec hprobe hcreate hwrite]
  simp only []
  rw [isSafeToKill_readable t1 f2 _ hprobe2 hread2, ParseInt_decimal t0.sec hsec,
    safe_iff_elapsed t1 t0.sec h1 h0.1 h0.2.1]
  have : ¬ elapsed t1 t0.sec > 2000000000 := by
    unfold elapsed
    omega
  simp [this]

/-- Witness for C6 (amended): the check at 1700000002.0 s after a drain at
1700000000.9 s. -/
theorem drain_then_isSafeToKill_within_witness :
    (isSafeToKill ⟨1700000002, 0⟩ Faults.none
      (drain ⟨1700000000, 900000000⟩ Faults.none none).marker).written = [400] :=
  drain_then_isSafeToKill_within ⟨1700000000, 900000000⟩ ⟨1700000002, 0⟩ Faults.none
    Faults.none (by decide) (by decide) rfl rfl rfl rfl rfl (by decide)

/-- C7. With the marker absent at `t0`, if `drain` succeeds at `t0` and `isSafeToKill`
runs at `t1` with a working probe and read, more than 2 seconds after `t0`, then
`isSafeToKill` writes 200: the content written by `drain` parses back, without error,
to the whole second of `t0`, and truncation only lengthens the measured time. -/
theorem drain_then_isSafeToKill_after (t0 t1 : Clock) (f f2 : Faults)
    (h0 : t0.Valid) (h1 : t1.Valid)
    (hprobe : f.stat = false) (hcreate : f.create = false) (hwrite : f.write = none)
    (hprobe2 : f2.stat = false) (hread2 : f2.read = false)
    (hgt : t1.unixNano - t0.unixNano > 2000000000) :
    (drain t0 f none).marker = some (decimal t0.sec) ∧
    strconv.ParseInt (decimal t0.sec) = (t0.sec, none) ∧
    (isSafeToKill t1 f2 (drain t0 f none).marker).written = [200] := by
  have hsec : IsInt64 t0.sec := by
    unfold Clock.Valid at h0
    rw [unixToInternal_eq] at h0
    unfold IsInt64
    unfold maxInt64 at h0 ⊢
    refine ⟨h0.1, ?_⟩
    omega
  have hn : 0 ≤ t0.nsec := h0.2.2.1
  rw [drain_fresh t0 f hsec hprobe hcreate hwrite]
  refine ⟨rfl, ParseInt_decimal t0.sec hsec, ?_⟩
  simp only []
  rw [isSafeToKill_readable t1 f2 _ hprobe2 hread2, ParseInt_decimal t0.sec hsec,
    safe_iff_elapsed t1 t0.sec h1 h0.1 h0.2.1]
  have : elapsed t1 t0.sec > 2000000000 := by
    unfold elapsed
    unfold Clock.unixNano at hgt ⊢
    omega
  simp [this]

/-- Witness for C7: the check at 1700000003.0 s after a drain at 1700000000.9 s. -/
theorem drain_then_isSafeToKill_after_witness :
    (isSafeToKill ⟨1700000003, 0⟩ Faults.none
      (drain ⟨1700000000, 900000000⟩ Faults.none none).marker).written = [200] :=
  (drain_then_isSafeToKill_after ⟨1700000000, 900000000⟩ ⟨1700000003, 0⟩ Faults.none
    Faults.none (by decide) (by decide) rfl rfl rfl rfl rfl (by decide)).2.2

/-- C8 (the code at the failing input). The marker holds `1700000000` followed by a
newline, which `strconv.ParseInt` rejects with a syntax error; half a second later
`isSafeToKill` writes 200, not 500. -/
theorem isSafeToKill_unparsable_marker :
    strconv.ParseInt (bytes "1700000000\n") = (0, some .ErrSyntax) ∧
    isSafeToKill ⟨1700000000, 500000000⟩ Faults.none (some (bytes "1700000000\n"))
      = ⟨some (bytes "1700000000\n"), [200]⟩ := by
  decide

/-- Once the probe and the read have succeeded `isSafeToKill` writes 200 or 400, whatever
the content: no content leads to 500. -/
theorem isSafeToKill_readable_never_500 (now : Clock) (f : Faults) (c : List Nat)
    (hs : f.stat = false) (hr : f.read = false) :
    (isSafeToKill now f (some c)).written = [200] ∨
    (isSafeToKill now f (some c)).written = [400] := by
  rw [isSafeToKill_readable now f c hs hr]
  simp only []
  split_ifs
  · left; rfl
  · right; rfl

/-- C10 (counterexample). Twenty nines followed by a newline are not a decimal integer;
`strconv.ParseInt` stops at the twentieth digit with a range error and the value
9223372036854775807, and that value, not 0, is the timestamp `isSafeToKill` uses: one
second after the epoch the handler writes 200 on this content, where timestamp 0 (as on
the empty content) gives 400. -/
theorem isSafeToKill_overflow_before_newline :
    IsDecimalInteger (bytes "99999999999999999999\n") = false ∧
    strconv.ParseInt (bytes "99999999999999999999\n")
      = (9223372036854775807, some .ErrRange) ∧
    time.Unix (strconv.ParseInt (bytes "99999999999999999999\n")).1 0 ≠ time.Unix 0 0 ∧
    elapsed ⟨1, 0⟩ 0 ≤ 2000000000 ∧
    (isSafeToKill ⟨1, 0⟩ Faults.none (some [])).written = [400] ∧
    (isSafeToKill ⟨1, 0⟩ Faults.none (some (bytes "99999999999999999999\n"))).written
      = [200] := by
  decide

/-- C10 (amended). For every marker that exists and is readable and whose content is not
syntactically a decimal integer, `strconv.ParseInt` reports an error, which
`isSafeToKill` discards; the timestamp it uses is the value returned with the error, 0
on a syntax error and the nearest `int64` bound on a range error, and in every case the
handler writes 200 at a valid clock reading more than 2 seconds after the Unix epoch.
On a syntax error it writes 400 at the other clock readings. -/
theorem isSafeToKill_not_decimal (now : Clock) (f : Faults) (c : List Nat)
    (hnow : now.Valid) (hs : f.stat = false) (hr : f.read = false)
    (hsyn : IsDecimalInteger c = false) :
    (strconv.ParseInt c = (0, some .ErrSyntax) ∨
      strconv.ParseInt c = (9223372036854775807, some .ErrRange) ∨
      strconv.ParseInt c = (-9223372036854775808, some .ErrRange)) ∧
    (now.unixNano > 2000000000 → (isSafeToKill now f (some c)).written = [200]) ∧
    ((strconv.ParseInt c).2 = some .ErrSyntax →
      (strconv.ParseInt c).1 = 0 ∧
      (isSafeToKill now f (some c)).written =
        (if now.unixNano > 2000000000 then [200] else [400])) := by
  have hzero : (isSafeToKill now f (some c)).written =
      (if secondsGt (Duration.Seconds (Since now (Unix (strconv.ParseInt c).1 0))) 2
        then [200] else [400]) := by
    rw [isSafeToKill_readable now f c hs hr]
  have hsynt : strconv.ParseInt c = (0, some .ErrSyntax) →
      (isSafeToKill now f (some c)).written =
        (if now.unixNano > 2000000000 then [200] else [400]) := by
    intro hp
    rw [hzero, hp, safe_iff_elapsed now 0 hnow (by decide) (by decide)]
    simp [elapsed]
  have hcases : strconv.ParseInt c = (0, some .ErrSyntax) ∨
      strconv.ParseInt c = (9223372036854775807, some .ErrRange) ∨
      strconv.ParseInt c = (-9223372036854775808, some .ErrRange) := by
    rcases ParseInt_cases c with h | h | h | ⟨v, _, _, h⟩
    · exact Or.inl h
    · exact Or.inr (Or.inl h)
    · exact Or.inr (Or.inr h)
    · rw [hsyn] at h; simp at h
  refine ⟨hcases, ?_, ?_⟩
  · intro hgt
    rcases hcases with h | h | h
    · rw [hsynt h, if_pos hgt]
    · rw [hzero, h, safe_of_maxInt64 now hnow hgt]
      rfl
    · rw [hzero, h, safe_of_minInt64 now hnow hgt]
      rfl
  · intro herr
    rcases hcases with h | h | h
    · exact ⟨by rw [h], hsynt h⟩
    · rw [h] at herr; simp at herr
    · rw [h] at herr; simp at herr

/-- Witness for C10 (amended): a write that fails before any byte reaches the file
leaves an empty marker, on which `isSafeToKill` writes 200; so it does on twenty nines
followed by a newline. -/
theorem isSafeToKill_not_decimal_witness :
    drain ⟨1700000000, 0⟩ ⟨false, false, some 0, false, false⟩ none = ⟨some [], [500]⟩ ∧
    (isSafeToKill ⟨1700000001, 0⟩ Faults.none (some [])).written = [200] ∧
    (isSafeToKill ⟨1700000001, 0⟩ Faults.none
      (some (bytes "99999999999999999999\n"))).written = [200] :=
  ⟨by decide,
   (isSafeToKill_not_decimal ⟨1700000001, 0⟩ Faults.none [] (by decide) rfl rfl
      (by decide)).2.1 (by decide),
   (isSafeToKill_not_decimal ⟨1700000001, 0⟩ Faults.none (bytes "99999999999999999999\n")
      (by decide) rfl rfl (by decide)).2.1 (by decide)⟩

end Httpdrain
